import Mathlib

/-!
Verification of the `speedy` binary serialization codec.

The repository contains `src/readable_impl.rs` (the decode implementations of
the primitive codec layer) and `tests/derive_tests.rs` (conformance tests of
the derived composite layout).  The Reader/Writer/Context plumbing and the
derive-generated encoders are not in the repository snapshot; they are
modelled here from the specification, and each such definition is marked
`Modelled from the spec:` in its doc comment.

Bytes are `Nat` values (a well-formed byte is `< 256`); a byte source is a
`List Nat`, read left to right.  A read returns the decoded value together
with the remaining bytes, or an error kind.
-/

/-- The two byte orders a `Context` can select. -/
inductive Endianness where
  | littleEndian
  | bigEndian
deriving DecidableEq, Repr

/-- Error taxonomy of the codec: insufficient data (`io::ErrorKind::UnexpectedEof`)
versus data validation (`io::ErrorKind::InvalidData`). -/
inductive ErrorKind where
  | unexpectedEof
  | invalidData
deriving DecidableEq, Repr

/-- Result of a read: either an error kind, or the value and the remaining bytes. -/
abbrev ReadResult (α : Type) := Except ErrorKind (α × List Nat)

/-- Modelled from the spec: `Reader::read_bytes` consumes exactly `count` raw
bytes verbatim, failing with an insufficient-data error if fewer remain. -/
def readRawBytes (count : Nat) (input : List Nat) : ReadResult (List Nat) :=
  if count ≤ input.length then Except.ok (input.take count, input.drop count)
  else Except.error ErrorKind.unexpectedEof

/-- Value of a little-endian byte sequence (first byte is least significant). -/
def bytesToNatLE : List Nat → Nat
  | [] => 0
  | b :: rest => b + 256 * bytesToNatLE rest

/-- Little-endian byte sequence of a value, `width` bytes long. -/
def natToBytesLE : Nat → Nat → List Nat
  | 0, _ => []
  | width + 1, v => v % 256 :: natToBytesLE width (v / 256)

/-- Value of a byte sequence interpreted in the given byte order. -/
def assemble (e : Endianness) (bytes : List Nat) : Nat :=
  match e with
  | Endianness.littleEndian => bytesToNatLE bytes
  | Endianness.bigEndian => bytesToNatLE bytes.reverse

/-- Byte sequence of a value in the given byte order, `width` bytes long. -/
def disassemble (e : Endianness) (width v : Nat) : List Nat :=
  match e with
  | Endianness.littleEndian => natToBytesLE width v
  | Endianness.bigEndian => (natToBytesLE width v).reverse

/-- Modelled from the spec: `Reader::read_u16/u32/u64` consume exactly
`width` bytes and convert from the Context byte order to a native value. -/
def readUnsigned (width : Nat) (e : Endianness) (input : List Nat) : ReadResult Nat :=
  match readRawBytes width input with
  | Except.error err => Except.error err
  | Except.ok (bs, rest) => Except.ok (assemble e bs, rest)

/-- Modelled from the spec: `Reader::read_u8` consumes one byte, no byte-order
conversion. -/
def readU8 (input : List Nat) : ReadResult Nat :=
  match readRawBytes 1 input with
  | Except.error err => Except.error err
  | Except.ok (bs, rest) => Except.ok (bs.headD 0, rest)

/-- Two's-complement reinterpretation of a `width`-byte unsigned value as signed. -/
def toSigned (width n : Nat) : Int :=
  if n < 2 ^ (8 * width - 1) then (n : Int) else (n : Int) - 2 ^ (8 * width)

/-- Two's-complement `width`-byte bit pattern of a signed value. -/
def toUnsigned (width : Nat) (i : Int) : Nat :=
  (i % ((2 : Int) ^ (8 * width))).toNat

/-- Modelled from the spec: `Reader::read_i16/i32/i64` read the unsigned bit
pattern in Context byte order and reinterpret it as two's-complement signed. -/
def readSigned (width : Nat) (e : Endianness) (input : List Nat) : ReadResult Int :=
  match readUnsigned width e input with
  | Except.error err => Except.error err
  | Except.ok (v, rest) => Except.ok (toSigned width v, rest)

/-- Modelled from the spec: `Sink::write_u16/u32/u64` emit the `width`-byte
encoding of a value in Context byte order. -/
def writeUnsigned (width : Nat) (e : Endianness) (v : Nat) : List Nat :=
  disassemble e width v

/-- Modelled from the spec: `Sink::write_i16/i32/i64` emit the two's-complement
bit pattern in Context byte order. -/
def writeSigned (width : Nat) (e : Endianness) (i : Int) : List Nat :=
  writeUnsigned width e (toUnsigned width i)

/-- `Readable for bool` (src/readable_impl.rs lines 11-26): read one byte,
`0` decodes to `false`, any nonzero byte to `true`. -/
def readBool (input : List Nat) : ReadResult Bool :=
  match readU8 input with
  | Except.error err => Except.error err
  | Except.ok (v, rest) => if v = 0 then Except.ok (false, rest) else Except.ok (true, rest)

/-- Modelled from the spec: the encoder is the exact inverse of the bool
decoder on canonical values, one byte, `false` as 0 and `true` as 1. -/
def writeBool (b : Bool) : List Nat :=
  if b then [1] else [0]

/-- `bool::minimum_bytes_needed` (src/readable_impl.rs): 1. -/
def boolMinimumBytesNeeded : Nat := 1

/-- `impl_for_primitive` `minimum_bytes_needed` (src/readable_impl.rs):
`mem::size_of::<Self>()`, the byte width of the type. -/
def primMinimumBytesNeeded (width : Nat) : Nat := width

/-- Model of Rust's `Cow<'a, [T]>`: a borrowed-or-owned view over a slice.
Rust's `PartialEq` on `Cow` compares the dereferenced contents (`val` here),
not the constructor. -/
inductive Cow (α : Type) where
  | borrowed (val : α)
  | owned (val : α)
deriving DecidableEq, Repr

/-- Contents of a borrowed-or-owned view. -/
def Cow.val {α : Type} : Cow α → α
  | Cow.borrowed v => v
  | Cow.owned v => v

/-- `Readable for Vec<u8>` (src/readable_impl.rs lines 55-70): read a u32
length prefix in Context byte order, then exactly that many raw bytes. -/
def readVecU8 (e : Endianness) (input : List Nat) : ReadResult (List Nat) :=
  match readUnsigned 4 e input with
  | Except.error err => Except.error err
  | Except.ok (length, rest) => readRawBytes length rest

/-- `Readable for Cow<'a, [u8]>` (src/readable_impl.rs lines 72-83): read an
owned `Vec<u8>` and wrap it via `bytes.into()`, which is `Cow::Owned`. -/
def readCowU8 (e : Endianness) (input : List Nat) : ReadResult (Cow (List Nat)) :=
  match readVecU8 e input with
  | Except.error err => Except.error err
  | Except.ok (bytes, rest) => Except.ok (Cow.owned bytes, rest)

/-- `Readable for Vec<i8>` (src/readable_impl.rs lines 85-97): read a `Vec<u8>`
and transmute it, i.e. reinterpret each byte's bit pattern as a two's-complement
signed byte. -/
def readVecI8 (e : Endianness) (input : List Nat) : ReadResult (List Int) :=
  match readVecU8 e input with
  | Except.error err => Except.error err
  | Except.ok (bytes, rest) => Except.ok (bytes.map (toSigned 1), rest)

/-- `Readable for Cow<'a, [i8]>` (src/readable_impl.rs lines 99-110): read an
owned `Vec<i8>` and wrap it via `into()`, which is `Cow::Owned`. -/
def readCowI8 (e : Endianness) (input : List Nat) : ReadResult (Cow (List Int)) :=
  match readVecI8 e input with
  | Except.error err => Except.error err
  | Except.ok (bytes, rest) => Except.ok (Cow.owned bytes, rest)

/-- Whether a byte is a UTF-8 continuation byte (0x80..0xBF). -/
def isUtf8Cont (b : Nat) : Bool :=
  128 ≤ b && b < 192

/-- UTF-8 well-formedness of a byte sequence, per the standard table that
Rust's `String::from_utf8` validates against: ASCII is one byte; two-byte
sequences have leads 0xC2..0xDF; three-byte sequences have leads 0xE0..0xEF
with restricted second bytes after 0xE0 (no overlong) and 0xED (no
surrogates); four-byte sequences have leads 0xF0..0xF4 with restricted
second bytes after 0xF0 (no overlong) and 0xF4 (max U+10FFFF). -/
def validUtf8 : List Nat → Bool
  | [] => true
  | b :: rest =>
    if b < 128 then validUtf8 rest
    else if b < 194 then false
    else if b < 224 then
      match rest with
      | b1 :: rest2 => isUtf8Cont b1 && validUtf8 rest2
      | [] => false
    else if b < 240 then
      match rest with
      | b1 :: b2 :: rest2 =>
        (if b = 224 then 160 ≤ b1 && b1 < 192
         else if b = 237 then 128 ≤ b1 && b1 < 160
         else isUtf8Cont b1) && isUtf8Cont b2 && validUtf8 rest2
      | _ => false
    else if b < 245 then
      match rest with
      | b1 :: b2 :: b3 :: rest2 =>
        (if b = 240 then 144 ≤ b1 && b1 < 192
         else if b = 244 then 128 ≤ b1 && b1 < 144
         else isUtf8Cont b1) && isUtf8Cont b2 && isUtf8Cont b3 && validUtf8 rest2
      | _ => false
    else false

/-- `Readable for String` (src/readable_impl.rs lines 112-126): read a
`Vec<u8>`, then `String::from_utf8`; invalid UTF-8 becomes an
`io::ErrorKind::InvalidData` error.  A string value is represented by its
exact UTF-8 byte sequence. -/
def readString (e : Endianness) (input : List Nat) : ReadResult (List Nat) :=
  match readVecU8 e input with
  | Except.error err => Except.error err
  | Except.ok (bytes, rest) =>
    if validUtf8 bytes then Except.ok (bytes, rest)
    else Except.error ErrorKind.invalidData

/-- Memory image of a vector of `length` elements of `width` bytes each:
the raw bytes split into consecutive `width`-byte element chunks. -/
def splitChunks (width : Nat) : Nat → List Nat → List (List Nat)
  | 0, _ => []
  | n + 1, l => l.take width :: splitChunks width n (l.drop width)

/-- Byte-order swap of a `width`-byte value: reverse its byte sequence. -/
def byteSwap (width v : Nat) : Nat :=
  bytesToNatLE ((natToBytesLE width v).reverse)

/-- `impl_for_primitive_slice` `read_from` (src/readable_impl.rs lines
128-146): read a u32 length prefix in Context (wire) byte order, bulk-copy
`length * width` raw bytes into native element storage (each element's value
is its chunk read in the native byte order), then let the Context's
`swap_slice` pass swap every element's bytes — modelled from the spec, the
pass swaps exactly when the wire order differs from the native order.
Elements are `width`-byte bit patterns (`Nat`), covering the signed,
unsigned and float element types, whose values are reinterpretations of
these patterns. -/
def readVecPrim (width : Nat) (native wire : Endianness) (input : List Nat) :
    ReadResult (List Nat) :=
  match readUnsigned 4 wire input with
  | Except.error err => Except.error err
  | Except.ok (length, rest) =>
    match readRawBytes (length * width) rest with
    | Except.error err => Except.error err
    | Except.ok (raw, rest2) =>
      let vec := (splitChunks width length raw).map (assemble native)
      Except.ok (if wire = native then vec else vec.map (byteSwap width), rest2)

/-- `impl_for_primitive_slice` `read_from` for `Cow<'a, [T]>`
(src/readable_impl.rs lines 148-159): read the owned vector and wrap it via
`into()`, which is `Cow::Owned`. -/
def readCowPrim (width : Nat) (native wire : Endianness) (input : List Nat) :
    ReadResult (Cow (List Nat)) :=
  match readVecPrim width native wire input with
  | Except.error err => Except.error err
  | Except.ok (vec, rest) => Except.ok (Cow.owned vec, rest)

/-- Concatenation of a sequence of byte strings. -/
def concatAll : List (List Nat) → List Nat
  | [] => []
  | l :: ls => l ++ concatAll ls

/-- Modelled from the spec: a byte vector encodes as a u32 length prefix in
Context byte order followed by the raw bytes. -/
def writeVecU8 (e : Endianness) (v : List Nat) : List Nat :=
  writeUnsigned 4 e v.length ++ v

/-- Modelled from the spec: a signed-byte vector has the identical wire
layout to a byte vector, each element's one-byte two's-complement bit
pattern written verbatim. -/
def writeVecI8 (e : Endianness) (v : List Int) : List Nat :=
  writeVecU8 e (v.map (toUnsigned 1))

/-- Modelled from the spec: a string has the identical wire layout to a byte
vector holding its UTF-8 bytes. -/
def writeString (e : Endianness) (s : List Nat) : List Nat :=
  writeVecU8 e s

/-- Modelled from the spec: a vector of `width`-byte numerics encodes as a
u32 length prefix followed by `length * width` bytes, each element in the
Context byte order. -/
def writeVecPrim (width : Nat) (e : Endianness) (v : List Nat) : List Nat :=
  writeUnsigned 4 e v.length ++ concatAll (v.map (writeUnsigned width e))

/-- Modelled from the spec: a borrowed-or-owned view encodes byte-identically
to the corresponding owned vector of its contents (here for byte slices). -/
def writeCowU8 (e : Endianness) (c : Cow (List Nat)) : List Nat :=
  writeVecU8 e c.val

/-- Modelled from the spec: Cow over signed-byte slices encodes as the owned
signed-byte vector of its contents. -/
def writeCowI8 (e : Endianness) (c : Cow (List Int)) : List Nat :=
  writeVecI8 e c.val

/-- Modelled from the spec: Cow over `width`-byte numeric slices encodes as
the owned numeric vector of its contents. -/
def writeCowPrim (width : Nat) (e : Endianness) (c : Cow (List Nat)) : List Nat :=
  writeVecPrim width e c.val

/-- `Vec<u8>::minimum_bytes_needed` (src/readable_impl.rs): 4, the u32
length prefix. -/
def vecU8MinimumBytesNeeded : Nat := 4

/-- `Cow<'a, [u8]>::minimum_bytes_needed` (src/readable_impl.rs): delegates
to `Vec<u8>`. -/
def cowU8MinimumBytesNeeded : Nat := vecU8MinimumBytesNeeded

/-- `Vec<i8>::minimum_bytes_needed` (src/readable_impl.rs): delegates to
`Vec<u8>`. -/
def vecI8MinimumBytesNeeded : Nat := vecU8MinimumBytesNeeded

/-- `Cow<'a, [i8]>::minimum_bytes_needed` (src/readable_impl.rs): delegates
to `Vec<i8>`. -/
def cowI8MinimumBytesNeeded : Nat := vecI8MinimumBytesNeeded

/-- `String::minimum_bytes_needed` (src/readable_impl.rs): delegates to
`Vec<u8>`. -/
def stringMinimumBytesNeeded : Nat := vecU8MinimumBytesNeeded

/-- `impl_for_primitive_slice` `minimum_bytes_needed` (src/readable_impl.rs):
delegates to `Vec<u8>`, i.e. 4, for every element width. -/
def vecPrimMinimumBytesNeeded (_width : Nat) : Nat := vecU8MinimumBytesNeeded

/-- `impl_for_primitive_slice` Cow `minimum_bytes_needed`
(src/readable_impl.rs): delegates to the owned vector. -/
def cowPrimMinimumBytesNeeded (width : Nat) : Nat := vecPrimMinimumBytesNeeded width

/-- Modelled from the spec: the derived struct encoder concatenates the
fields' individual wire encodings strictly in declaration order, with no
padding, length prefix, or field tags.  A fixed-width numeric field is a
(byte width, bit-pattern value) pair. -/
def writeFields (e : Endianness) (fields : List (Nat × Nat)) : List Nat :=
  concatAll (fields.map (fun f => writeUnsigned f.1 e f.2))

/-- `DerivedStruct` (tests/derive_tests.rs lines 7-12): `{ a: u8, b: u16, c: u32 }`. -/
structure DerivedStruct where
  a : Nat
  b : Nat
  c : Nat
deriving DecidableEq, Repr

/-- Modelled from the spec: the derived encoder of `DerivedStruct`, its three
fields in declaration order. -/
def writeDerivedStruct (e : Endianness) (s : DerivedStruct) : List Nat :=
  writeFields e [(1, s.a), (2, s.b), (4, s.c)]

/-- Modelled from the spec: the derived encoder of `DerivedTupleStruct(u8, u16, u32)`
(tests/derive_tests.rs line 15), its fields in declaration order. -/
def writeDerivedTupleStruct (e : Endianness) (x y z : Nat) : List Nat :=
  writeFields e [(1, x), (2, y), (4, z)]

/-- Modelled from the spec: a unit struct (tests/derive_tests.rs line 18) has
no fields, so its encoding is the empty concatenation. -/
def writeDerivedUnitStruct (e : Endianness) : List Nat :=
  writeFields e []

/-- Modelled from the spec: discriminant numbering by sequential increment,
given the next implicit value: an explicit variant uses its value and resets
the baseline, an implicit variant takes the running value. -/
def assignDiscriminantsFrom : Nat → List (Option Nat) → List Nat
  | _, [] => []
  | next, none :: rest => next :: assignDiscriminantsFrom (next + 1) rest
  | _, some v :: rest => v :: assignDiscriminantsFrom (v + 1) rest

/-- Modelled from the spec: discriminants of an enum's variant list (explicit
values as `some`), the first implicit variant defaulting to 0. -/
def assignDiscriminants (variants : List (Option Nat)) : List Nat :=
  assignDiscriminantsFrom 0 variants

/-- `DerivedSimpleEnum` (tests/derive_tests.rs lines 23-28): `{ A, B = 10, C }`. -/
inductive DerivedSimpleEnum where
  | A
  | B
  | C
deriving DecidableEq, Repr

/-- Declaration index of a `DerivedSimpleEnum` variant. -/
def simpleEnumIndex : DerivedSimpleEnum → Nat
  | DerivedSimpleEnum.A => 0
  | DerivedSimpleEnum.B => 1
  | DerivedSimpleEnum.C => 2

/-- Discriminant of a `DerivedSimpleEnum` variant under the sequential
numbering of its declaration `{ A, B = 10, C }`. -/
def simpleEnumDiscriminant (v : DerivedSimpleEnum) : Nat :=
  (assignDiscriminants [none, some 10, none]).getD (simpleEnumIndex v) 0

/-- Modelled from the spec: an enum value encodes as its u32 discriminant in
Context byte order followed by the variant payload. -/
def writeEnum (e : Endianness) (disc : Nat) (payload : List Nat) : List Nat :=
  writeUnsigned 4 e disc ++ payload

/-- Modelled from the spec: the derived encoder of `DerivedSimpleEnum`, whose
variants are all unit variants with empty payloads. -/
def writeSimpleEnum (e : Endianness) (v : DerivedSimpleEnum) : List Nat :=
  writeEnum e (simpleEnumDiscriminant v) []

/-- Modelled from the spec: the derived decoder of `DerivedStruct` reads its
fields strictly in declaration order — a u8 via `read_u8`, then a u16 and a
u32 in Context byte order — with no padding, prefix, or tags. -/
def readDerivedStruct (e : Endianness) (input : List Nat) : ReadResult DerivedStruct :=
  match readU8 input with
  | Except.error err => Except.error err
  | Except.ok (a, rest1) =>
    match readUnsigned 2 e rest1 with
    | Except.error err => Except.error err
    | Except.ok (b, rest2) =>
      match readUnsigned 4 e rest2 with
      | Except.error err => Except.error err
      | Except.ok (c, rest3) => Except.ok (⟨a, b, c⟩, rest3)

/-- Modelled from the spec: the derived decoder of `DerivedTupleStruct(u8, u16, u32)`,
its positional fields read in declaration order exactly as a named struct. -/
def readDerivedTupleStruct (e : Endianness) (input : List Nat) :
    ReadResult (Nat × Nat × Nat) :=
  match readU8 input with
  | Except.error err => Except.error err
  | Except.ok (x, rest1) =>
    match readUnsigned 2 e rest1 with
    | Except.error err => Except.error err
    | Except.ok (y, rest2) =>
      match readUnsigned 4 e rest2 with
      | Except.error err => Except.error err
      | Except.ok (z, rest3) => Except.ok ((x, y, z), rest3)

/-- Modelled from the spec: a unit struct has a zero-byte wire representation
in both directions, so its decoder consumes nothing and always succeeds. -/
def readDerivedUnitStruct (_e : Endianness) (input : List Nat) : ReadResult Unit :=
  Except.ok ((), input)

/-- Modelled from the spec: a struct with zero fields (tests/derive_tests.rs
line 21) encodes to the empty concatenation, like a unit struct. -/
def writeDerivedEmptyStruct (e : Endianness) : List Nat :=
  writeFields e []

/-- Modelled from the spec: the zero-field struct decoder consumes nothing. -/
def readDerivedEmptyStruct (_e : Endianness) (input : List Nat) : ReadResult Unit :=
  Except.ok ((), input)

/-- Modelled from the spec: the derived decoder of `DerivedSimpleEnum` reads
a u32 discriminant in Context byte order and selects the variant with that
discriminant (0 → A, 10 → B, 11 → C per the sequential numbering); an
unrecognized discriminant is a data-validation error. -/
def readSimpleEnum (e : Endianness) (input : List Nat) : ReadResult DerivedSimpleEnum :=
  match readUnsigned 4 e input with
  | Except.error err => Except.error err
  | Except.ok (disc, rest) =>
    if disc = 0 then Except.ok (DerivedSimpleEnum.A, rest)
    else if disc = 10 then Except.ok (DerivedSimpleEnum.B, rest)
    else if disc = 11 then Except.ok (DerivedSimpleEnum.C, rest)
    else Except.error ErrorKind.invalidData

/-- `DerivedEnum` (tests/derive_tests.rs lines 30-39): a unit variant A, a
tuple variant `B(u8, u16, u32)` and a named-field variant
`C { a: u8, b: u16, c: u32 }`, all discriminants implicit. -/
inductive DerivedEnum where
  | A
  | B (x y z : Nat)
  | C (a b c : Nat)
deriving DecidableEq, Repr

/-- Declaration index of a `DerivedEnum` variant. -/
def derivedEnumIndex : DerivedEnum → Nat
  | DerivedEnum.A => 0
  | DerivedEnum.B _ _ _ => 1
  | DerivedEnum.C _ _ _ => 2

/-- Discriminant of a `DerivedEnum` variant under the sequential numbering of
its declaration (all implicit, so 0, 1, 2). -/
def derivedEnumDiscriminant (v : DerivedEnum) : Nat :=
  (assignDiscriminants [none, none, none]).getD (derivedEnumIndex v) 0

/-- Modelled from the spec: a `DerivedEnum` variant payload — zero bytes for
the unit variant, the fields in declaration order for the tuple and
named-field variants, exactly as a struct. -/
def derivedEnumPayload (e : Endianness) : DerivedEnum → List Nat
  | DerivedEnum.A => []
  | DerivedEnum.B x y z => writeFields e [(1, x), (2, y), (4, z)]
  | DerivedEnum.C a b c => writeFields e [(1, a), (2, b), (4, c)]

/-- Modelled from the spec: the derived encoder of `DerivedEnum`, a u32
discriminant in Context byte order followed by the variant payload. -/
def writeDerivedEnum (e : Endianness) (v : DerivedEnum) : List Nat :=
  writeEnum e (derivedEnumDiscriminant v) (derivedEnumPayload e v)

/-- Modelled from the spec: the derived decoder of `DerivedEnum` reads the
u32 discriminant, then the selected variant payload field by field in
declaration order; an unrecognized discriminant is a data-validation
error. -/
def readDerivedEnum (e : Endianness) (input : List Nat) : ReadResult DerivedEnum :=
  match readUnsigned 4 e input with
  | Except.error err => Except.error err
  | Except.ok (disc, rest) =>
    if disc = 0 then Except.ok (DerivedEnum.A, rest)
    else if disc = 1 then
      match readU8 rest with
      | Except.error err => Except.error err
      | Except.ok (x, r1) =>
        match readUnsigned 2 e r1 with
        | Except.error err => Except.error err
        | Except.ok (y, r2) =>
          match readUnsigned 4 e r2 with
          | Except.error err => Except.error err
          | Except.ok (z, r3) => Except.ok (DerivedEnum.B x y z, r3)
    else if disc = 2 then
      match readU8 rest with
      | Except.error err => Except.error err
      | Except.ok (a, r1) =>
        match readUnsigned 2 e r1 with
        | Except.error err => Except.error err
        | Except.ok (b, r2) =>
          match readUnsigned 4 e r2 with
          | Except.error err => Except.error err
          | Except.ok (c, r3) => Except.ok (DerivedEnum.C a b c, r3)
    else Except.error ErrorKind.invalidData

/-- Whether a `DerivedEnum` value's payload fields fit their declared Rust
field widths (u8, u16, u32); every representable Rust value satisfies it. -/
def derivedEnumFieldsValid : DerivedEnum → Prop
  | DerivedEnum.A => True
  | DerivedEnum.B x y z => x < 256 ∧ y < 256 ^ 2 ∧ z < 256 ^ 4
  | DerivedEnum.C a b c => a < 256 ∧ b < 256 ^ 2 ∧ c < 256 ^ 4

/-- `DerivedStructWithLifetime` (tests/derive_tests.rs lines 42-44): a struct
whose single field is a borrowed-or-owned byte view. -/
structure DerivedStructWithLifetime where
  bytes : Cow (List Nat)
deriving DecidableEq, Repr

/-- Modelled from the spec: the derived encoder of `DerivedStructWithLifetime`
encodes its single view field (byte-identically to the owned byte vector of
its contents). -/
def writeDerivedStructWithLifetime (e : Endianness) (s : DerivedStructWithLifetime) :
    List Nat :=
  writeCowU8 e s.bytes

/-- Modelled from the spec: the derived decoder of `DerivedStructWithLifetime`
decodes its single view field. -/
def readDerivedStructWithLifetime (e : Endianness) (input : List Nat) :
    ReadResult DerivedStructWithLifetime :=
  match readCowU8 e input with
  | Except.error err => Except.error err
  | Except.ok (c, rest) => Except.ok (⟨c⟩, rest)

-- Basic lemmas about the byte helpers.

theorem natToBytesLE_length (w : Nat) : ∀ v, (natToBytesLE w v).length = w := by
  induction w with
  | zero => intro v; rfl
  | succ n ih => intro v; simp [natToBytesLE, ih]

theorem natToBytesLE_lt (w : Nat) : ∀ v, ∀ b ∈ natToBytesLE w v, b < 256 := by
  induction w with
  | zero => intro v b hb; simp [natToBytesLE] at hb
  | succ n ih =>
    intro v b hb
    simp only [natToBytesLE, List.mem_cons] at hb
    rcases hb with hb | hb
    · subst hb; exact Nat.mod_lt _ (by decide)
    · exact ih _ b hb

theorem bytesToNatLE_natToBytesLE (w : Nat) : ∀ v, bytesToNatLE (natToBytesLE w v) = v % 256 ^ w := by
  induction w with
  | zero => intro v; simp [natToBytesLE, bytesToNatLE, Nat.mod_one]
  | succ n ih =>
    intro v
    simp only [natToBytesLE, bytesToNatLE, ih]
    rw [pow_succ, mul_comm (256 ^ n) 256, Nat.mod_mul]

theorem natToBytesLE_bytesToNatLE (bs : List Nat) (h : ∀ b ∈ bs, b < 256) :
    natToBytesLE bs.length (bytesToNatLE bs) = bs := by
  induction bs with
  | nil => rfl
  | cons b rest ih =>
    have hb : b < 256 := h b (by simp)
    simp only [List.length_cons, natToBytesLE, bytesToNatLE]
    congr 1
    · rw [Nat.add_mul_mod_self_left, Nat.mod_eq_of_lt hb]
    · rw [Nat.add_mul_div_left _ _ (by decide : 0 < 256), Nat.div_eq_of_lt hb, Nat.zero_add]
      exact ih (fun x hx => h x (by simp [hx]))

theorem bytesToNatLE_lt (bs : List Nat) (h : ∀ b ∈ bs, b < 256) :
    bytesToNatLE bs < 256 ^ bs.length := by
  induction bs with
  | nil => simp [bytesToNatLE]
  | cons b rest ih =>
    have hb : b < 256 := h b (by simp)
    have hr : bytesToNatLE rest < 256 ^ rest.length := ih (fun x hx => h x (by simp [hx]))
    simp only [bytesToNatLE, List.length_cons, pow_succ, mul_comm (256 ^ rest.length) 256]
    calc b + 256 * bytesToNatLE rest < 256 + 256 * bytesToNatLE rest := by omega
    _ = 256 * (bytesToNatLE rest + 1) := by ring
    _ ≤ 256 * 256 ^ rest.length := by
        exact Nat.mul_le_mul_left _ (by omega)

theorem assemble_disassemble (e : Endianness) (w v : Nat) :
    assemble e (disassemble e w v) = v % 256 ^ w := by
  cases e <;> simp [assemble, disassemble, List.reverse_reverse, bytesToNatLE_natToBytesLE]

theorem disassemble_length (e : Endianness) (w v : Nat) :
    (disassemble e w v).length = w := by
  cases e <;> simp [disassemble, natToBytesLE_length]

theorem readRawBytes_append (n : Nat) (xs rest : List Nat) (h : xs.length = n) :
    readRawBytes n (xs ++ rest) = Except.ok (xs, rest) := by
  subst h
  simp [readRawBytes, List.take_left, List.drop_left]

theorem readUnsigned_append (w : Nat) (e : Endianness) (v : Nat) (rest : List Nat) :
    readUnsigned w e (writeUnsigned w e v ++ rest) = Except.ok (v % 256 ^ w, rest) := by
  unfold readUnsigned writeUnsigned
  rw [readRawBytes_append w _ rest (disassemble_length e w v)]
  simp [assemble_disassemble]

theorem concatAll_length (w : Nat) (ls : List (List Nat)) (h : ∀ l ∈ ls, l.length = w) :
    (concatAll ls).length = ls.length * w := by
  induction ls with
  | nil => simp [concatAll]
  | cons l ls ih =>
    have hl : l.length = w := h l (by simp)
    simp only [concatAll, List.length_append, List.length_cons, hl,
      ih (fun x hx => h x (by simp [hx]))]
    ring

theorem splitChunks_concatAll (w : Nat) (ls : List (List Nat)) (h : ∀ l ∈ ls, l.length = w) :
    splitChunks w ls.length (concatAll ls) = ls := by
  induction ls with
  | nil => rfl
  | cons l ls ih =>
    have hl : l.length = w := h l (by simp)
    simp only [List.length_cons, splitChunks, concatAll]
    rw [← hl, List.take_left, List.drop_left, hl,
      ih (fun x hx => h x (by simp [hx]))]

theorem natToBytesLE_bytesToNatLE_of_length (w : Nat) (bs : List Nat)
    (hlen : bs.length = w) (h : ∀ b ∈ bs, b < 256) :
    natToBytesLE w (bytesToNatLE bs) = bs := by
  subst hlen
  exact natToBytesLE_bytesToNatLE bs h

theorem byteSwap_byteSwap (w v : Nat) (h : v < 256 ^ w) : byteSwap w (byteSwap w v) = v := by
  unfold byteSwap
  rw [natToBytesLE_bytesToNatLE_of_length w ((natToBytesLE w v).reverse)
    (by simp [natToBytesLE_length])
    (by intro b hb; exact natToBytesLE_lt w v b (List.mem_reverse.mp hb))]
  rw [List.reverse_reverse, bytesToNatLE_natToBytesLE, Nat.mod_eq_of_lt h]

theorem assemble_disassemble_cross (native wire : Endianness) (h : native ≠ wire)
    (w v : Nat) : assemble native (disassemble wire w v) = byteSwap w v := by
  cases native <;> cases wire <;>
    simp_all [assemble, disassemble, byteSwap, List.reverse_reverse]

theorem toUnsigned_toSigned (w n : Nat) (h : n < 2 ^ (8 * w)) :
    toUnsigned w (toSigned w n) = n := by
  have hM : ((n : Int)) < 2 ^ (8 * w) := by exact_mod_cast h
  unfold toSigned toUnsigned
  by_cases hn : n < 2 ^ (8 * w - 1)
  · rw [if_pos hn, Int.emod_eq_of_lt (by positivity) hM]
    simp
  · have hsub : ((n : Int) - 2 ^ (8 * w)) % 2 ^ (8 * w) = (n : Int) % 2 ^ (8 * w) := by
      conv_lhs => rw [show (n : Int) - 2 ^ (8 * w) = n + 2 ^ (8 * w) * (-1) by ring]
      exact Int.add_mul_emod_self_left _ _ _
    rw [if_neg hn, hsub, Int.emod_eq_of_lt (by positivity) hM]
    simp

theorem toSigned_toUnsigned (w : Nat) (i : Int) (hw : 0 < w)
    (hlo : -(2 ^ (8 * w - 1)) ≤ i) (hhi : i < 2 ^ (8 * w - 1)) :
    toSigned w (toUnsigned w i) = i := by
  have hpow : (2 : Int) ^ (8 * w) = 2 ^ (8 * w - 1) * 2 := by
    have h1 : 8 * w = (8 * w - 1) + 1 := by omega
    conv_lhs => rw [h1]
    rw [pow_succ]
  have hcast : ((2 ^ (8 * w - 1) : Nat) : Int) = 2 ^ (8 * w - 1) := by push_cast; ring
  have hH : (0 : Int) < 2 ^ (8 * w - 1) := by positivity
  unfold toSigned toUnsigned
  by_cases hi : 0 ≤ i
  · rw [Int.emod_eq_of_lt hi (by omega)]
    have htoNat : ((i.toNat : Int)) = i := Int.toNat_of_nonneg hi
    have hlt : i.toNat < 2 ^ (8 * w - 1) := by omega
    rw [if_pos hlt, htoNat]
  · have hneg : i < 0 := by omega
    have hmod : i % (2 : Int) ^ (8 * w) = i + 2 ^ (8 * w) := by
      have h1 : (i + 2 ^ (8 * w)) % 2 ^ (8 * w) = i % 2 ^ (8 * w) := by
        conv_lhs => rw [show i + (2 : Int) ^ (8 * w) = i + 2 ^ (8 * w) * 1 by ring]
        exact Int.add_mul_emod_self_left _ _ _
      rw [← h1, Int.emod_eq_of_lt (by omega) (by omega)]
    rw [hmod]
    have hge : ¬ ((i + 2 ^ (8 * w)).toNat < 2 ^ (8 * w - 1)) := by omega
    rw [if_neg hge]
    have hnn : (((i + 2 ^ (8 * w)).toNat : Int)) = i + 2 ^ (8 * w) :=
      Int.toNat_of_nonneg (by omega)
    rw [hnn]
    ring

theorem readRawBytes_ok_iff (n : Nat) (input bs rest : List Nat) :
    readRawBytes n input = Except.ok (bs, rest) ↔
      n ≤ input.length ∧ bs = input.take n ∧ rest = input.drop n := by
  unfold readRawBytes
  split
  · constructor
    · intro h
      injection h with h2
      injection h2 with h3 h4
      exact ⟨by assumption, h3.symm, h4.symm⟩
    · rintro ⟨h1, rfl, rfl⟩
      rfl
  · constructor
    · intro h
      cases h
    · rintro ⟨h1, rfl, rfl⟩
      omega

theorem readUnsigned_ok_iff (w : Nat) (e : Endianness) (input : List Nat) (v : Nat)
    (rest : List Nat) :
    readUnsigned w e input = Except.ok (v, rest) ↔
      w ≤ input.length ∧ v = assemble e (input.take w) ∧ rest = input.drop w := by
  unfold readUnsigned
  constructor
  · intro h
    cases hr : readRawBytes w input with
    | error err => rw [hr] at h; cases h
    | ok p =>
      rw [hr] at h
      obtain ⟨bs, rest2⟩ := p
      injection h with h2
      injection h2 with h3 h4
      obtain ⟨h5, h6, h7⟩ := (readRawBytes_ok_iff w input bs rest2).mp hr
      exact ⟨h5, by rw [← h3, h6], by rw [← h4, h7]⟩
  · rintro ⟨h1, rfl, rfl⟩
    rw [(readRawBytes_ok_iff w input (input.take w) (input.drop w)).mpr ⟨h1, rfl, rfl⟩]

theorem readVecU8_writeVecU8 (e : Endianness) (v extra : List Nat)
    (h : v.length < 2 ^ 32) :
    readVecU8 e (writeVecU8 e v ++ extra) = Except.ok (v, extra) := by
  unfold writeVecU8 readVecU8
  rw [List.append_assoc, readUnsigned_append]
  have hlt : v.length % 256 ^ 4 = v.length := Nat.mod_eq_of_lt (by norm_num; omega)
  rw [hlt]
  exact readRawBytes_append _ v extra rfl

theorem map_eq_self {α : Type} (l : List α) (f : α → α) (h : ∀ x ∈ l, f x = x) :
    l.map f = l := by
  induction l with
  | nil => rfl
  | cons x xs ih =>
    simp only [List.map_cons, h x (by simp), ih (fun y hy => h y (by simp [hy]))]

theorem readVecPrim_writeVecPrim (w : Nat) (native wire : Endianness)
    (vals extra : List Nat) (hlen : vals.length < 2 ^ 32)
    (hvals : ∀ x ∈ vals, x < 256 ^ w) :
    readVecPrim w native wire (writeVecPrim w wire vals ++ extra) =
      Except.ok (vals, extra) := by
  have hchunk : ∀ l ∈ vals.map (writeUnsigned w wire), l.length = w := by
    intro l hl
    obtain ⟨x, _, rfl⟩ := List.mem_map.mp hl
    exact disassemble_length wire w x
  have hplen : (concatAll (vals.map (writeUnsigned w wire))).length = vals.length * w := by
    rw [concatAll_length w _ hchunk, List.length_map]
  have h256 : vals.length % 256 ^ 4 = vals.length := Nat.mod_eq_of_lt (by norm_num; omega)
  have hread1 : readUnsigned 4 wire (writeVecPrim w wire vals ++ extra) =
      Except.ok (vals.length, concatAll (vals.map (writeUnsigned w wire)) ++ extra) := by
    unfold writeVecPrim
    rw [List.append_assoc, readUnsigned_append, h256]
  have hread2 : readRawBytes (vals.length * w)
        (concatAll (vals.map (writeUnsigned w wire)) ++ extra) =
      Except.ok (concatAll (vals.map (writeUnsigned w wire)), extra) :=
    readRawBytes_append _ _ extra hplen
  have hsplit : splitChunks w vals.length (concatAll (vals.map (writeUnsigned w wire))) =
      vals.map (writeUnsigned w wire) := by
    have h1 := splitChunks_concatAll w (vals.map (writeUnsigned w wire)) hchunk
    rwa [List.length_map] at h1
  simp only [readVecPrim, hread1, hread2, hsplit, List.map_map]
  by_cases hew : wire = native
  · subst hew
    rw [if_pos rfl]
    rw [map_eq_self _ _ (fun x hx => by
      simp only [Function.comp_apply, writeUnsigned, assemble_disassemble]
      exact Nat.mod_eq_of_lt (hvals x hx))]
  · rw [if_neg hew]
    rw [map_eq_self _ _ (fun x hx => by
      simp only [Function.comp_apply, writeUnsigned]
      rw [assemble_disassemble_cross native wire (fun hne => hew hne.symm)]
      exact byteSwap_byteSwap w x (hvals x hx))]

theorem assemble_lt (e : Endianness) (bs : List Nat) (h : ∀ b ∈ bs, b < 256) :
    assemble e bs < 256 ^ bs.length := by
  cases e with
  | littleEndian => exact bytesToNatLE_lt bs h
  | bigEndian =>
    have h1 := bytesToNatLE_lt bs.reverse (fun b hb => h b (List.mem_reverse.mp hb))
    rwa [List.length_reverse] at h1

theorem disassemble_assemble (e : Endianness) (bs : List Nat) (h : ∀ b ∈ bs, b < 256) :
    disassemble e bs.length (assemble e bs) = bs := by
  cases e with
  | littleEndian => exact natToBytesLE_bytesToNatLE bs h
  | bigEndian =>
    show (natToBytesLE bs.length (bytesToNatLE bs.reverse)).reverse = bs
    rw [natToBytesLE_bytesToNatLE_of_length bs.length bs.reverse (List.length_reverse bs)
      (fun b hb => h b (List.mem_reverse.mp hb))]
    exact List.reverse_reverse bs

theorem pow256_eq (w : Nat) : (256 : Nat) ^ w = 2 ^ (8 * w) := by
  rw [show (256 : Nat) = 2 ^ 8 by norm_num, ← pow_mul]

theorem toUnsigned_lt (w : Nat) (i : Int) : toUnsigned w i < 2 ^ (8 * w) := by
  unfold toUnsigned
  have h2 : (0 : Int) < 2 ^ (8 * w) := by positivity
  have hmod := Int.emod_nonneg i (ne_of_gt h2)
  have hlt := Int.emod_lt_of_pos i h2
  have hcast : (((2 ^ (8 * w) : Nat)) : Int) = 2 ^ (8 * w) := by push_cast; ring
  omega

theorem readVecU8_ok_inv (e : Endianness) (input vec rest : List Nat)
    (h : readVecU8 e input = Except.ok (vec, rest)) :
    4 ≤ input.length ∧ vec.length = assemble e (input.take 4) ∧
      input = input.take 4 ++ vec ++ rest ∧
      input.length = 4 + vec.length + rest.length := by
  unfold readVecU8 at h
  cases hr : readUnsigned 4 e input with
  | error err => rw [hr] at h; cases h
  | ok p =>
    rw [hr] at h
    obtain ⟨len, rest1⟩ := p
    obtain ⟨h4, hlen, hrest1⟩ := (readUnsigned_ok_iff 4 e input len rest1).mp hr
    obtain ⟨hle, hvec, hrest⟩ := (readRawBytes_ok_iff len rest1 vec rest).mp h
    have hveclen : vec.length = len := by
      rw [hvec, List.length_take]
      omega
    refine ⟨h4, by rw [hveclen, hlen], ?_, ?_⟩
    · rw [List.append_assoc]
      conv_lhs => rw [← List.take_append_drop 4 input]
      rw [← hrest1, hvec, hrest, List.take_append_drop]
    · have hrl : rest.length = rest1.length - len := by rw [hrest, List.length_drop]
      have hr1 : rest1.length = input.length - 4 := by rw [hrest1, List.length_drop]
      omega

theorem readVecPrim_ok_inv (w : Nat) (native wire : Endianness) (input : List Nat)
    (vec rest : List Nat) (h : readVecPrim w native wire input = Except.ok (vec, rest)) :
    4 ≤ input.length ∧
      input.length = 4 + assemble wire (input.take 4) * w + rest.length := by
  unfold readVecPrim at h
  split at h
  · cases h
  · rename_i p len rest1 heq
    split at h
    · cases h
    · rename_i q raw rest2 heq2
      obtain ⟨h4, hlen, hrest1⟩ := (readUnsigned_ok_iff 4 wire input len rest1).mp heq
      obtain ⟨hle, hraw, hrest2⟩ := (readRawBytes_ok_iff (len * w) rest1 raw rest2).mp heq2
      have hrest : rest = rest2 := by
        injection h with h2
        injection h2 with h3 h4b
        exact h4b.symm
      have hrl : rest2.length = rest1.length - len * w := by rw [hrest2, List.length_drop]
      have hr1 : rest1.length = input.length - 4 := by rw [hrest1, List.length_drop]
      subst hrest
      rw [← hlen]
      exact ⟨h4, by omega⟩

theorem writeFields_length (e : Endianness) (fields : List (Nat × Nat)) :
    (writeFields e fields).length = (fields.map Prod.fst).sum := by
  induction fields with
  | nil => rfl
  | cons f fs ih =>
    have h1 : writeFields e (f :: fs) = writeUnsigned f.1 e f.2 ++ writeFields e fs := rfl
    have hu : (writeUnsigned f.1 e f.2).length = f.1 := disassemble_length e f.1 f.2
    rw [h1, List.length_append, hu, ih, List.map_cons, List.sum_cons]

/-- Claim C2: struct (named-field and tuple) encoding concatenates the fields'
wire encodings strictly in declaration order with no padding, length prefix,
or field tags (the output length is exactly the sum of the field widths); the
struct `{a: u8=1, b: u16=2, c: u32=3}` and the tuple struct `(1u8, 2u16, 3u32)`
encode little-endian to `[1, 2, 0, 3, 0, 0, 0]`, and a unit or zero-field
struct encodes to the empty byte sequence. -/
theorem claim_struct_concatenation :
    (∀ (e : Endianness) (fields : List (Nat × Nat)),
        writeFields e fields = concatAll (fields.map (fun f => writeUnsigned f.1 e f.2))) ∧
    (∀ (e : Endianness) (fields : List (Nat × Nat)),
        (writeFields e fields).length = (fields.map Prod.fst).sum) ∧
    writeDerivedStruct Endianness.littleEndian ⟨1, 2, 3⟩ = [1, 2, 0, 3, 0, 0, 0] ∧
    writeDerivedTupleStruct Endianness.littleEndian 1 2 3 = [1, 2, 0, 3, 0, 0, 0] ∧
    (∀ e : Endianness, writeDerivedUnitStruct e = []) :=
  ⟨fun _ _ => rfl, writeFields_length, rfl, rfl, fun _ => rfl⟩

/-- Claim C3: an enum encodes as a u32 discriminant in Context byte order
followed by the variant payload; discriminants are numbered by sequential
increment from explicit values, so the enum `{A, B = 10, C}` gets
discriminants `[0, 10, 11]` and encodes little-endian as
A = `[0,0,0,0]`, B = `[10,0,0,0]`, C = `[11,0,0,0]`. -/
theorem claim_enum_discriminants :
    (∀ (e : Endianness) (disc : Nat) (payload : List Nat),
        writeEnum e disc payload = writeUnsigned 4 e disc ++ payload ∧
        (writeEnum e disc payload).length = 4 + payload.length) ∧
    assignDiscriminants [none, some 10, none] = [0, 10, 11] ∧
    writeSimpleEnum Endianness.littleEndian DerivedSimpleEnum.A = [0, 0, 0, 0] ∧
    writeSimpleEnum Endianness.littleEndian DerivedSimpleEnum.B = [10, 0, 0, 0] ∧
    writeSimpleEnum Endianness.littleEndian DerivedSimpleEnum.C = [11, 0, 0, 0] := by
  refine ⟨fun e d p => ⟨rfl, ?_⟩, rfl, rfl, rfl, rfl⟩
  have h1 : writeEnum e d p = writeUnsigned 4 e d ++ p := rfl
  have hu : (writeUnsigned 4 e d).length = 4 := disassemble_length e 4 d
  rw [h1, List.length_append, hu]

/-- Claim C8 counterexample: the byte sequence `[2]` decodes as bool to
`true`, consuming the byte 2, but re-encoding `true` produces `[1]`, not the
consumed bytes — so encode is not the byte-for-byte inverse of decode for
bool. -/
theorem claim_primitive_reencode_cex :
    readBool [2] = Except.ok (true, []) ∧ writeBool true = [1] ∧
      writeBool true ≠ [2] :=
  ⟨rfl, rfl, by decide⟩

theorem readUnsigned_reencode (w : Nat) (e : Endianness) (input : List Nat)
    (v : Nat) (rest : List Nat) (hb : ∀ b ∈ input, b < 256)
    (h : readUnsigned w e input = Except.ok (v, rest)) :
    writeUnsigned w e v = input.take w ∧ input = writeUnsigned w e v ++ rest := by
  obtain ⟨hw, hv, hrest⟩ := (readUnsigned_ok_iff w e input v rest).mp h
  have htake : (input.take w).length = w := by
    rw [List.length_take]
    omega
  have hbytes : ∀ b ∈ input.take w, b < 256 := fun b hb2 => hb b (List.mem_of_mem_take hb2)
  have hda := disassemble_assemble e (input.take w) hbytes
  rw [htake] at hda
  have hwrite : writeUnsigned w e v = input.take w := by
    rw [hv]
    exact hda
  exact ⟨hwrite, by rw [hwrite, hrest, List.take_append_drop]⟩

/-- Claim C8 amended: for the fixed-width integer and float primitives,
re-encoding a decoded value under the same Context reproduces exactly the
consumed bytes; for bool this holds exactly when the consumed byte is the
canonical 0 or 1 (any other nonzero byte also decodes to `true` but
re-encodes to `[1]`). -/
theorem claim_primitive_reencode_amended :
    (∀ (w : Nat) (e : Endianness) (input : List Nat) (v : Nat) (rest : List Nat),
        (∀ b ∈ input, b < 256) →
        readUnsigned w e input = Except.ok (v, rest) →
        writeUnsigned w e v = input.take w ∧ input = writeUnsigned w e v ++ rest) ∧
    (∀ (w : Nat) (e : Endianness) (input : List Nat) (i : Int) (rest : List Nat),
        (∀ b ∈ input, b < 256) →
        readSigned w e input = Except.ok (i, rest) →
        writeSigned w e i = input.take w ∧ input = writeSigned w e i ++ rest) ∧
    (∀ (input : List Nat) (v : Bool) (rest : List Nat),
        readBool input = Except.ok (v, rest) →
        input.take 1 = [0] ∨ input.take 1 = [1] →
        writeBool v = input.take 1 ∧ input = writeBool v ++ rest) := by
  refine ⟨readUnsigned_reencode, ?_, ?_⟩
  · intro w e input i rest hb h
    unfold readSigned at h
    cases hu : readUnsigned w e input with
    | error err => rw [hu] at h; cases h
    | ok p =>
      rw [hu] at h
      obtain ⟨v0, rest0⟩ := p
      have hi : i = toSigned w v0 := by
        injection h with h2
        injection h2 with h3 h4
        exact h3.symm
      have hrest : rest = rest0 := by
        injection h with h2
        injection h2 with h3 h4
        exact h4.symm
      subst hi
      subst hrest
      obtain ⟨hw, hv, hrest0⟩ := (readUnsigned_ok_iff w e input v0 rest).mp hu
      have hbound : v0 < 2 ^ (8 * w) := by
        rw [← pow256_eq]
        have h1 := assemble_lt e (input.take w)
          (fun b hb2 => hb b (List.mem_of_mem_take hb2))
        rw [List.length_take] at h1
        have h2 : min w input.length = w := by omega
        rw [h2] at h1
        rw [hv]
        exact h1
      have hws : writeSigned w e (toSigned w v0) = writeUnsigned w e v0 := by
        unfold writeSigned
        rw [toUnsigned_toSigned w v0 hbound]
      rw [hws]
      exact readUnsigned_reencode w e input v0 rest hb hu
  · intro input v rest h hc
    cases input with
    | nil => simp [readBool, readU8, readRawBytes] at h
    | cons b bs =>
      have hread : readBool (b :: bs) =
          if b = 0 then Except.ok (false, bs) else Except.ok (true, bs) := by
        simp [readBool, readU8, readRawBytes]
      have htake : (b :: bs).take 1 = [b] := rfl
      rcases hc with hc | hc
      · have hb0 : b = 0 := by
          rw [htake] at hc
          injection hc
        subst hb0
        rw [hread, if_pos rfl] at h
        have hv : v = false := by
          injection h with h2
          injection h2 with h3 h4
          exact h3.symm
        have hrest : rest = bs := by
          injection h with h2
          injection h2 with h3 h4
          exact h4.symm
        subst hv
        subst hrest
        exact ⟨rfl, rfl⟩
      · have hb1 : b = 1 := by
          rw [htake] at hc
          injection hc
        subst hb1
        rw [hread, if_neg (by decide)] at h
        have hv : v = true := by
          injection h with h2
          injection h2 with h3 h4
          exact h3.symm
        have hrest : rest = bs := by
          injection h with h2
          injection h2 with h3 h4
          exact h4.symm
        subst hv
        subst hrest
        exact ⟨rfl, rfl⟩

/-- Witness for the amended C8 claim: decoding the two bytes `[3, 1]` as a
little-endian u16 yields 259, whose re-encoding reproduces the consumed
bytes exactly. -/
theorem claim_primitive_reencode_amended_witness :
    writeUnsigned 2 Endianness.littleEndian 259 = ([3, 1] : List Nat).take 2 ∧
      ([3, 1] : List Nat) = writeUnsigned 2 Endianness.littleEndian 259 ++ [] :=
  claim_primitive_reencode_amended.1 2 Endianness.littleEndian [3, 1] 259 []
    (by decide) rfl

/-- Claim C10: every successful decode of a borrowed-or-owned view (Cow over
byte, signed-byte, or multi-byte numeric slices) returns the owned variant —
decode materializes an owned vector and wraps it, never a borrowed
reference. -/
theorem claim_cow_owned :
    (∀ (e : Endianness) (input : List Nat) (c : Cow (List Nat)) (rest : List Nat),
        readCowU8 e input = Except.ok (c, rest) → ∃ v, c = Cow.owned v) ∧
    (∀ (e : Endianness) (input : List Nat) (c : Cow (List Int)) (rest : List Nat),
        readCowI8 e input = Except.ok (c, rest) → ∃ v, c = Cow.owned v) ∧
    (∀ (w : Nat) (native wire : Endianness) (input : List Nat)
        (c : Cow (List Nat)) (rest : List Nat),
        readCowPrim w native wire input = Except.ok (c, rest) → ∃ v, c = Cow.owned v) := by
  refine ⟨?_, ?_, ?_⟩
  · intro e input c rest h
    unfold readCowU8 at h
    split at h
    · cases h
    · injection h with h2
      injection h2 with h3 h4
      exact ⟨_, h3.symm⟩
  · intro e input c rest h
    unfold readCowI8 at h
    split at h
    · cases h
    · injection h with h2
      injection h2 with h3 h4
      exact ⟨_, h3.symm⟩
  · intro w native wire input c rest h
    unfold readCowPrim at h
    split at h
    · cases h
    · injection h with h2
      injection h2 with h3 h4
      exact ⟨_, h3.symm⟩

/-- Witness for C10: decoding the Cow byte view from `[1,0,0,0,5]`
(little-endian) succeeds and the result is the owned variant. -/
theorem claim_cow_owned_witness :
    ∃ v, (Cow.owned ([5] : List Nat)) = Cow.owned v :=
  claim_cow_owned.1 Endianness.littleEndian [1, 0, 0, 0, 5] (Cow.owned [5]) [] rfl

/-- Claim C7: decoding a signed-byte vector consumes exactly the same bytes
and succeeds or fails exactly when decoding an unsigned byte vector does; on
success each element is the two's-complement reinterpretation of the
corresponding unsigned byte, and the one-byte reinterpretation is lossless
(the bit pattern is unchanged), with no byte-order swap involved. -/
theorem claim_i8_reinterpretation :
    (∀ (e : Endianness) (input : List Nat) (err : ErrorKind),
        readVecU8 e input = Except.error err ↔ readVecI8 e input = Except.error err) ∧
    (∀ (e : Endianness) (input bytes rest : List Nat),
        readVecU8 e input = Except.ok (bytes, rest) →
        readVecI8 e input = Except.ok (bytes.map (toSigned 1), rest)) ∧
    (∀ b : Nat, b < 256 → toUnsigned 1 (toSigned 1 b) = b) := by
  refine ⟨?_, ?_, ?_⟩
  · intro e input err
    constructor
    · intro h
      unfold readVecI8
      rw [h]
    · intro h
      unfold readVecI8 at h
      split at h
      · rename_i err2 heq
        injection h with h2
        rw [heq, h2]
      · cases h
  · intro e input bytes rest h
    unfold readVecI8
    rw [h]
  · intro b hb
    apply toUnsigned_toSigned 1 b
    have h1 : (2 : Nat) ^ (8 * 1) = 256 := by norm_num
    omega

/-- Witness for C7: from the bytes `[1,0,0,0,255]` (little-endian), the
signed-byte vector decode succeeds exactly as the byte vector decode does,
reinterpreting the byte 255 as -1. -/
theorem claim_i8_reinterpretation_witness :
    readVecI8 Endianness.littleEndian [1, 0, 0, 0, 255] =
      Except.ok (([255] : List Nat).map (toSigned 1), []) :=
  claim_i8_reinterpretation.2.1 Endianness.littleEndian [1, 0, 0, 0, 255] [255] [] rfl

/-- Claim C6: decoding a UTF-8 string reads the same wire layout as a byte
vector; when the payload bytes are valid UTF-8 it returns exactly those
bytes (never a replacement or truncated string), and when they are not it
fails with the data-validation error, which is distinct from the
insufficient-data error; a failing byte-vector read propagates unchanged. -/
theorem claim_string_utf8 :
    (∀ (e : Endianness) (input : List Nat) (err : ErrorKind),
        readVecU8 e input = Except.error err → readString e input = Except.error err) ∧
    (∀ (e : Endianness) (input bytes rest : List Nat),
        readVecU8 e input = Except.ok (bytes, rest) →
        (validUtf8 bytes = true → readString e input = Except.ok (bytes, rest)) ∧
        (validUtf8 bytes = false →
          readString e input = Except.error ErrorKind.invalidData)) ∧
    ErrorKind.invalidData ≠ ErrorKind.unexpectedEof := by
  refine ⟨?_, ?_, by decide⟩
  · intro e input err h
    unfold readString
    rw [h]
  · intro e input bytes rest h
    constructor
    · intro hv
      unfold readString
      rw [h]
      simp [hv]
    · intro hv
      unfold readString
      rw [h]
      simp [hv]

/-- Witness for C6: from `[1,0,0,0,255]` (little-endian) the byte vector
decode succeeds with payload `[255]`, which is not valid UTF-8, so the
string decode fails with the data-validation error. -/
theorem claim_string_utf8_witness :
    readString Endianness.littleEndian [1, 0, 0, 0, 255] =
      Except.error ErrorKind.invalidData :=
  ((claim_string_utf8.2.1 Endianness.littleEndian [1, 0, 0, 0, 255] [255] [] rfl).2) rfl

/-- Claim C4: a successful byte-vector decode reads the u32 length prefix
(in Context byte order) and then exactly that many raw bytes, the decoded
vector having exactly that many elements; and every variable-length encoder
(byte, signed-byte and numeric vectors, strings, and their views) emits a
4-byte u32 length prefix followed by exactly `length * element_size` payload
bytes. -/
theorem claim_varlen_wire_format :
    (∀ (e : Endianness) (input vec rest : List Nat),
        readVecU8 e input = Except.ok (vec, rest) →
        4 ≤ input.length ∧ vec.length = assemble e (input.take 4) ∧
        input = input.take 4 ++ vec ++ rest ∧
        input.length = 4 + vec.length + rest.length) ∧
    (∀ (e : Endianness) (n : Nat), (writeUnsigned 4 e n).length = 4) ∧
    (∀ (e : Endianness) (v : List Nat),
        writeVecU8 e v = writeUnsigned 4 e v.length ++ v) ∧
    (∀ (e : Endianness) (v : List Int),
        writeVecI8 e v = writeUnsigned 4 e v.length ++ v.map (toUnsigned 1)) ∧
    (∀ (e : Endianness) (s : List Nat),
        writeString e s = writeUnsigned 4 e s.length ++ s) ∧
    (∀ (w : Nat) (e : Endianness) (vals : List Nat),
        writeVecPrim w e vals =
          writeUnsigned 4 e vals.length ++ concatAll (vals.map (writeUnsigned w e)) ∧
        (concatAll (vals.map (writeUnsigned w e))).length = vals.length * w) ∧
    (∀ (e : Endianness) (c : Cow (List Nat)), writeCowU8 e c = writeVecU8 e c.val) ∧
    (∀ (e : Endianness) (c : Cow (List Int)), writeCowI8 e c = writeVecI8 e c.val) ∧
    (∀ (w : Nat) (e : Endianness) (c : Cow (List Nat)),
        writeCowPrim w e c = writeVecPrim w e c.val) := by
  refine ⟨fun e input vec rest h => readVecU8_ok_inv e input vec rest h,
    fun e n => disassemble_length e 4 n, fun _ _ => rfl, ?_, fun _ _ => rfl,
    ?_, fun _ _ => rfl, fun _ _ => rfl, fun _ _ _ => rfl⟩
  · intro e v
    unfold writeVecI8 writeVecU8
    rw [List.length_map]
  · intro w e vals
    refine ⟨rfl, ?_⟩
    have hchunk : ∀ l ∈ vals.map (writeUnsigned w e), l.length = w := by
      intro l hl
      obtain ⟨x, _, rfl⟩ := List.mem_map.mp hl
      exact disassemble_length e w x
    rw [concatAll_length w _ hchunk, List.length_map]

/-- Witness for C4: decoding `[2,0,0,0,5,6,7]` little-endian as a byte
vector succeeds with payload `[5,6]` and remainder `[7]`, consuming the
4-byte prefix plus exactly 2 payload bytes. -/
theorem claim_varlen_wire_format_witness :
    4 ≤ ([2, 0, 0, 0, 5, 6, 7] : List Nat).length ∧
    ([5, 6] : List Nat).length =
      assemble Endianness.littleEndian (([2, 0, 0, 0, 5, 6, 7] : List Nat).take 4) ∧
    ([2, 0, 0, 0, 5, 6, 7] : List Nat) =
      ([2, 0, 0, 0, 5, 6, 7] : List Nat).take 4 ++ [5, 6] ++ [7] ∧
    ([2, 0, 0, 0, 5, 6, 7] : List Nat).length =
      4 + ([5, 6] : List Nat).length + ([7] : List Nat).length :=
  claim_varlen_wire_format.1 Endianness.littleEndian [2, 0, 0, 0, 5, 6, 7] [5, 6] [7] rfl

theorem readU8_ok_inv (input : List Nat) (v : Nat) (rest : List Nat)
    (h : readU8 input = Except.ok (v, rest)) :
    1 ≤ input.length ∧ rest = input.drop 1 := by
  cases hr : readRawBytes 1 input with
  | error err => unfold readU8 at h; rw [hr] at h; cases h
  | ok p =>
    obtain ⟨bs, r⟩ := p
    unfold readU8 at h
    rw [hr] at h
    obtain ⟨h1, hbs, hr2⟩ := (readRawBytes_ok_iff 1 input bs r).mp hr
    have hrest : rest = r := by
      injection h with h2
      injection h2 with h3 h4
      exact h4.symm
    exact ⟨h1, by rw [hrest, hr2]⟩

theorem readBool_ok_inv (input : List Nat) (v : Bool) (rest : List Nat)
    (h : readBool input = Except.ok (v, rest)) :
    1 ≤ input.length ∧ rest = input.drop 1 := by
  cases hu : readU8 input with
  | error err => unfold readBool at h; rw [hu] at h; cases h
  | ok p =>
    obtain ⟨v0, r0⟩ := p
    unfold readBool at h
    rw [hu] at h
    obtain ⟨h1, hr⟩ := readU8_ok_inv input v0 r0 hu
    have h2 : (if v0 = 0 then (Except.ok (false, r0) : ReadResult Bool)
        else Except.ok (true, r0)) = Except.ok (v, rest) := h
    have hrest : rest = r0 := by
      by_cases hv0 : v0 = 0
      · rw [if_pos hv0] at h2
        injection h2 with h3
        injection h3 with h4 h5
        exact h5.symm
      · rw [if_neg hv0] at h2
        injection h2 with h3
        injection h3 with h4 h5
        exact h5.symm
    exact ⟨h1, by rw [hrest, hr]⟩

theorem readSigned_ok_inv (w : Nat) (e : Endianness) (input : List Nat) (i : Int)
    (rest : List Nat) (h : readSigned w e input = Except.ok (i, rest)) :
    w ≤ input.length ∧ rest = input.drop w := by
  cases hu : readUnsigned w e input with
  | error err => unfold readSigned at h; rw [hu] at h; cases h
  | ok p =>
    obtain ⟨v0, r0⟩ := p
    unfold readSigned at h
    rw [hu] at h
    obtain ⟨h1, hv, hr⟩ := (readUnsigned_ok_iff w e input v0 r0).mp hu
    have hrest : rest = r0 := by
      injection h with h2
      injection h2 with h3 h4
      exact h4.symm
    exact ⟨h1, by rw [hrest, hr]⟩

theorem readVecI8_ok_inv (e : Endianness) (input : List Nat) (v : List Int)
    (rest : List Nat) (h : readVecI8 e input = Except.ok (v, rest)) :
    ∃ bytes, readVecU8 e input = Except.ok (bytes, rest) := by
  cases hv : readVecU8 e input with
  | error err => unfold readVecI8 at h; rw [hv] at h; cases h
  | ok p =>
    obtain ⟨bytes, r⟩ := p
    unfold readVecI8 at h
    rw [hv] at h
    have hrest : rest = r := by
      injection h with h2
      injection h2 with h3 h4
      exact h4.symm
    exact ⟨bytes, by rw [hrest]⟩

theorem readString_ok_inv (e : Endianness) (input : List Nat) (s : List Nat)
    (rest : List Nat) (h : readString e input = Except.ok (s, rest)) :
    readVecU8 e input = Except.ok (s, rest) := by
  cases hv : readVecU8 e input with
  | error err => unfold readString at h; rw [hv] at h; cases h
  | ok p =>
    obtain ⟨bytes, r⟩ := p
    unfold readString at h
    rw [hv] at h
    have h2 : (if validUtf8 bytes then (Except.ok (bytes, r) : ReadResult (List Nat))
        else Except.error ErrorKind.invalidData) = Except.ok (s, rest) := h
    by_cases hval : validUtf8 bytes
    · rw [if_pos hval] at h2
      have hs : s = bytes := by
        injection h2 with h3
        injection h3 with h4 h5
        exact h4.symm
      have hrest : rest = r := by
        injection h2 with h3
        injection h3 with h4 h5
        exact h5.symm
      rw [hs, hrest]
    · rw [if_neg hval] at h2
      cases h2

theorem readCowU8_ok_inv (e : Endianness) (input : List Nat) (c : Cow (List Nat))
    (rest : List Nat) (h : readCowU8 e input = Except.ok (c, rest)) :
    ∃ bytes, readVecU8 e input = Except.ok (bytes, rest) := by
  cases hv : readVecU8 e input with
  | error err => unfold readCowU8 at h; rw [hv] at h; cases h
  | ok p =>
    obtain ⟨bytes, r⟩ := p
    unfold readCowU8 at h
    rw [hv] at h
    have hrest : rest = r := by
      injection h with h2
      injection h2 with h3 h4
      exact h4.symm
    exact ⟨bytes, by rw [hrest]⟩

theorem readCowI8_ok_inv (e : Endianness) (input : List Nat) (c : Cow (List Int))
    (rest : List Nat) (h : readCowI8 e input = Except.ok (c, rest)) :
    ∃ v, readVecI8 e input = Except.ok (v, rest) := by
  cases hv : readVecI8 e input with
  | error err => unfold readCowI8 at h; rw [hv] at h; cases h
  | ok p =>
    obtain ⟨v0, r⟩ := p
    unfold readCowI8 at h
    rw [hv] at h
    have hrest : rest = r := by
      injection h with h2
      injection h2 with h3 h4
      exact h4.symm
    exact ⟨v0, by rw [hrest]⟩

theorem readCowPrim_ok_inv (w : Nat) (native wire : Endianness) (input : List Nat)
    (c : Cow (List Nat)) (rest : List Nat)
    (h : readCowPrim w native wire input = Except.ok (c, rest)) :
    ∃ v, readVecPrim w native wire input = Except.ok (v, rest) := by
  cases hv : readVecPrim w native wire input with
  | error err => unfold readCowPrim at h; rw [hv] at h; cases h
  | ok p =>
    obtain ⟨v0, r⟩ := p
    unfold readCowPrim at h
    rw [hv] at h
    have hrest : rest = r := by
      injection h with h2
      injection h2 with h3 h4
      exact h4.symm
    exact ⟨v0, by rw [hrest]⟩

/-- Claim C9: the minimum-size hints are 1 for bool, `sizeof(type)` for each
fixed-width integer/float, and exactly 4 (the u32 length prefix) for every
variable-length type (byte/signed-byte/numeric vectors, strings, and their
views); and no successful decode consumes fewer bytes than its type's
hint. -/
theorem claim_minimum_size_hints :
    boolMinimumBytesNeeded = 1 ∧
    (∀ w, primMinimumBytesNeeded w = w) ∧
    vecU8MinimumBytesNeeded = 4 ∧ cowU8MinimumBytesNeeded = 4 ∧
    vecI8MinimumBytesNeeded = 4 ∧ cowI8MinimumBytesNeeded = 4 ∧
    stringMinimumBytesNeeded = 4 ∧
    (∀ w, vecPrimMinimumBytesNeeded w = 4) ∧
    (∀ w, cowPrimMinimumBytesNeeded w = 4) ∧
    (∀ (input : List Nat) (v : Bool) (rest : List Nat),
        readBool input = Except.ok (v, rest) →
        boolMinimumBytesNeeded ≤ input.length - rest.length) ∧
    (∀ (w : Nat) (e : Endianness) (input : List Nat) (v : Nat) (rest : List Nat),
        readUnsigned w e input = Except.ok (v, rest) →
        primMinimumBytesNeeded w ≤ input.length - rest.length) ∧
    (∀ (w : Nat) (e : Endianness) (input : List Nat) (i : Int) (rest : List Nat),
        readSigned w e input = Except.ok (i, rest) →
        primMinimumBytesNeeded w ≤ input.length - rest.length) ∧
    (∀ (e : Endianness) (input vec rest : List Nat),
        readVecU8 e input = Except.ok (vec, rest) →
        vecU8MinimumBytesNeeded ≤ input.length - rest.length) ∧
    (∀ (e : Endianness) (input : List Nat) (c : Cow (List Nat)) (rest : List Nat),
        readCowU8 e input = Except.ok (c, rest) →
        cowU8MinimumBytesNeeded ≤ input.length - rest.length) ∧
    (∀ (e : Endianness) (input : List Nat) (v : List Int) (rest : List Nat),
        readVecI8 e input = Except.ok (v, rest) →
        vecI8MinimumBytesNeeded ≤ input.length - rest.length) ∧
    (∀ (e : Endianness) (input : List Nat) (c : Cow (List Int)) (rest : List Nat),
        readCowI8 e input = Except.ok (c, rest) →
        cowI8MinimumBytesNeeded ≤ input.length - rest.length) ∧
    (∀ (e : Endianness) (input s rest : List Nat),
        readString e input = Except.ok (s, rest) →
        stringMinimumBytesNeeded ≤ input.length - rest.length) ∧
    (∀ (w : Nat) (native wire : Endianness) (input vec rest : List Nat),
        readVecPrim w native wire input = Except.ok (vec, rest) →
        vecPrimMinimumBytesNeeded w ≤ input.length - rest.length) ∧
    (∀ (w : Nat) (native wire : Endianness) (input : List Nat) (c : Cow (List Nat))
        (rest : List Nat),
        readCowPrim w native wire input = Except.ok (c, rest) →
        cowPrimMinimumBytesNeeded w ≤ input.length - rest.length) := by
  have hvec : ∀ (e : Endianness) (input vec rest : List Nat),
      readVecU8 e input = Except.ok (vec, rest) → 4 ≤ input.length - rest.length := by
    intro e input vec rest h
    obtain ⟨h4, hlen, happ, htot⟩ := readVecU8_ok_inv e input vec rest h
    omega
  have hprim : ∀ (w : Nat) (native wire : Endianness) (input vec rest : List Nat),
      readVecPrim w native wire input = Except.ok (vec, rest) →
      4 ≤ input.length - rest.length := by
    intro w native wire input vec rest h
    obtain ⟨h4, htot⟩ := readVecPrim_ok_inv w native wire input vec rest h
    omega
  refine ⟨rfl, fun _ => rfl, rfl, rfl, rfl, rfl, rfl, fun _ => rfl, fun _ => rfl,
    ?_, ?_, ?_, hvec, ?_, ?_, ?_, ?_, hprim, ?_⟩
  · intro input v rest h
    obtain ⟨h1, hrest⟩ := readBool_ok_inv input v rest h
    rw [hrest, List.length_drop]
    unfold boolMinimumBytesNeeded
    omega
  · intro w e input v rest h
    obtain ⟨h1, hv, hrest⟩ := (readUnsigned_ok_iff w e input v rest).mp h
    rw [hrest, List.length_drop]
    unfold primMinimumBytesNeeded
    omega
  · intro w e input i rest h
    obtain ⟨h1, hrest⟩ := readSigned_ok_inv w e input i rest h
    rw [hrest, List.length_drop]
    unfold primMinimumBytesNeeded
    omega
  · intro e input c rest h
    obtain ⟨bytes, hb⟩ := readCowU8_ok_inv e input c rest h
    exact hvec e input bytes rest hb
  · intro e input v rest h
    obtain ⟨bytes, hb⟩ := readVecI8_ok_inv e input v rest h
    exact hvec e input bytes rest hb
  · intro e input c rest h
    obtain ⟨v, hv2⟩ := readCowI8_ok_inv e input c rest h
    obtain ⟨bytes, hb⟩ := readVecI8_ok_inv e input v rest hv2
    exact hvec e input bytes rest hb
  · intro e input s rest h
    exact hvec e input s rest (readString_ok_inv e input s rest h)
  · intro w native wire input c rest h
    obtain ⟨v, hv2⟩ := readCowPrim_ok_inv w native wire input c rest h
    exact hprim w native wire input v rest hv2

/-- Witness for C9: decoding the byte vector `[1,0,0,0,9]` little-endian
succeeds and consumes 5 bytes, at least the 4-byte hint. -/
theorem claim_minimum_size_hints_witness :
    vecU8MinimumBytesNeeded ≤
      ([1, 0, 0, 0, 9] : List Nat).length - ([] : List Nat).length :=
  (claim_minimum_size_hints.2.2.2.2.2.2.2.2.2.2.2.2.1)
    Endianness.littleEndian [1, 0, 0, 0, 9] [9] [] rfl

/-- Claim C5: numeric-vector decode reads a u32 length prefix, bulk-copies
`length * width` raw wire bytes into native element storage, applies exactly
one whole-buffer byte-order swap pass when the wire order differs from the
native order and none when they agree, and decoding with the same Context
that encoded reproduces the original element values (for both byte
orders and any native order). -/
theorem claim_numeric_vector_swap :
    (∀ (w : Nat) (native wire : Endianness) (vals extra : List Nat),
        vals.length < 2 ^ 32 → (∀ x ∈ vals, x < 256 ^ w) →
        readVecPrim w native wire (writeVecPrim w wire vals ++ extra) =
          Except.ok (vals, extra)) ∧
    (∀ (w : Nat) (native : Endianness) (input : List Nat) (len : Nat)
        (rest raw rest2 : List Nat),
        readUnsigned 4 native input = Except.ok (len, rest) →
        readRawBytes (len * w) rest = Except.ok (raw, rest2) →
        readVecPrim w native native input =
          Except.ok ((splitChunks w len raw).map (assemble native), rest2)) ∧
    (∀ (w : Nat) (native wire : Endianness) (input : List Nat) (len : Nat)
        (rest raw rest2 : List Nat),
        wire ≠ native →
        readUnsigned 4 wire input = Except.ok (len, rest) →
        readRawBytes (len * w) rest = Except.ok (raw, rest2) →
        readVecPrim w native wire input =
          Except.ok (((splitChunks w len raw).map (assemble native)).map (byteSwap w),
            rest2)) := by
  refine ⟨readVecPrim_writeVecPrim, ?_, ?_⟩
  · intro w native input len rest raw rest2 h1 h2
    simp only [readVecPrim, h1, h2, if_true]
  · intro w native wire input len rest raw rest2 hne h1 h2
    simp only [readVecPrim, h1, h2, if_neg hne]

/-- Witness for C5: the vector `[1, 2]` of 4-byte elements encoded
big-endian decodes back to `[1, 2]` on a little-endian-native machine using
the same big-endian Context. -/
theorem claim_numeric_vector_swap_witness :
    readVecPrim 4 Endianness.littleEndian Endianness.bigEndian
        (writeVecPrim 4 Endianness.bigEndian [1, 2] ++ []) = Except.ok ([1, 2], []) :=
  claim_numeric_vector_swap.1 4 Endianness.littleEndian Endianness.bigEndian [1, 2] []
    (by decide) (by decide)

theorem readVecI8_writeVecI8 (e : Endianness) (v : List Int) (extra : List Nat)
    (hlen : v.length < 2 ^ 32) (hbound : ∀ i ∈ v, -128 ≤ i ∧ i < 128) :
    readVecI8 e (writeVecI8 e v ++ extra) = Except.ok (v, extra) := by
  have hu : readVecU8 e (writeVecU8 e (v.map (toUnsigned 1)) ++ extra) =
      Except.ok (v.map (toUnsigned 1), extra) :=
    readVecU8_writeVecU8 e _ extra (by rw [List.length_map]; exact hlen)
  unfold writeVecI8
  simp only [readVecI8, hu, List.map_map]
  rw [map_eq_self v _ (fun x hx => ?_)]
  have h1 := hbound x hx
  have h2 : ((2 : Int) ^ (8 * 1 - 1)) = 128 := by norm_num
  simp only [Function.comp_apply]
  exact toSigned_toUnsigned 1 x (by decide) (by omega) (by omega)

theorem readString_writeString (e : Endianness) (s extra : List Nat)
    (hlen : s.length < 2 ^ 32) (hvalid : validUtf8 s = true) :
    readString e (writeString e s ++ extra) = Except.ok (s, extra) := by
  have hu := readVecU8_writeVecU8 e s extra hlen
  unfold writeString
  simp only [readString, hu]
  rw [if_pos hvalid]

theorem readU8_append (e : Endianness) (v : Nat) (rest : List Nat) (h : v < 256) :
    readU8 (writeUnsigned 1 e v ++ rest) = Except.ok (v, rest) := by
  have h1 : writeUnsigned 1 e v = [v % 256] := by
    cases e <;> simp [writeUnsigned, disassemble, natToBytesLE]
  rw [h1, Nat.mod_eq_of_lt h]
  simp [readU8, readRawBytes]

theorem readDerivedStruct_writeDerivedStruct (e : Endianness) (s : DerivedStruct)
    (extra : List Nat) (h1 : s.a < 256) (h2 : s.b < 256 ^ 2) (h3 : s.c < 256 ^ 4) :
    readDerivedStruct e (writeDerivedStruct e s ++ extra) = Except.ok (s, extra) := by
  have hw : writeDerivedStruct e s ++ extra =
      writeUnsigned 1 e s.a ++ (writeUnsigned 2 e s.b ++ (writeUnsigned 4 e s.c ++ extra)) := by
    simp [writeDerivedStruct, writeFields, concatAll, List.append_assoc]
  have r1 : readU8 (writeUnsigned 1 e s.a ++
        (writeUnsigned 2 e s.b ++ (writeUnsigned 4 e s.c ++ extra))) =
      Except.ok (s.a, writeUnsigned 2 e s.b ++ (writeUnsigned 4 e s.c ++ extra)) :=
    readU8_append e s.a _ h1
  have r2 : readUnsigned 2 e (writeUnsigned 2 e s.b ++ (writeUnsigned 4 e s.c ++ extra)) =
      Except.ok (s.b, writeUnsigned 4 e s.c ++ extra) := by
    rw [readUnsigned_append, Nat.mod_eq_of_lt h2]
  have r3 : readUnsigned 4 e (writeUnsigned 4 e s.c ++ extra) = Except.ok (s.c, extra) := by
    rw [readUnsigned_append, Nat.mod_eq_of_lt h3]
  rw [hw]
  simp [readDerivedStruct, r1, r2, r3]

theorem readDerivedTupleStruct_writeDerivedTupleStruct (e : Endianness) (x y z : Nat)
    (extra : List Nat) (h1 : x < 256) (h2 : y < 256 ^ 2) (h3 : z < 256 ^ 4) :
    readDerivedTupleStruct e (writeDerivedTupleStruct e x y z ++ extra) =
      Except.ok ((x, y, z), extra) := by
  have hw : writeDerivedTupleStruct e x y z ++ extra =
      writeUnsigned 1 e x ++ (writeUnsigned 2 e y ++ (writeUnsigned 4 e z ++ extra)) := by
    simp [writeDerivedTupleStruct, writeFields, concatAll, List.append_assoc]
  have r1 : readU8 (writeUnsigned 1 e x ++
        (writeUnsigned 2 e y ++ (writeUnsigned 4 e z ++ extra))) =
      Except.ok (x, writeUnsigned 2 e y ++ (writeUnsigned 4 e z ++ extra)) :=
    readU8_append e x _ h1
  have r2 : readUnsigned 2 e (writeUnsigned 2 e y ++ (writeUnsigned 4 e z ++ extra)) =
      Except.ok (y, writeUnsigned 4 e z ++ extra) := by
    rw [readUnsigned_append, Nat.mod_eq_of_lt h2]
  have r3 : readUnsigned 4 e (writeUnsigned 4 e z ++ extra) = Except.ok (z, extra) := by
    rw [readUnsigned_append, Nat.mod_eq_of_lt h3]
  rw [hw]
  simp [readDerivedTupleStruct, r1, r2, r3]

theorem readSimpleEnum_writeSimpleEnum (e : Endianness) (v : DerivedSimpleEnum)
    (extra : List Nat) :
    readSimpleEnum e (writeSimpleEnum e v ++ extra) = Except.ok (v, extra) := by
  cases v with
  | A =>
    have hw : writeSimpleEnum e DerivedSimpleEnum.A ++ extra = writeUnsigned 4 e 0 ++ extra := by
      show (writeUnsigned 4 e 0 ++ []) ++ extra = writeUnsigned 4 e 0 ++ extra
      rw [List.append_assoc, List.nil_append]
    have r0 : readUnsigned 4 e (writeUnsigned 4 e 0 ++ extra) = Except.ok (0, extra) := by
      rw [readUnsigned_append, Nat.mod_eq_of_lt (by norm_num)]
    rw [hw]
    simp [readSimpleEnum, r0]
  | B =>
    have hw : writeSimpleEnum e DerivedSimpleEnum.B ++ extra = writeUnsigned 4 e 10 ++ extra := by
      show (writeUnsigned 4 e 10 ++ []) ++ extra = writeUnsigned 4 e 10 ++ extra
      rw [List.append_assoc, List.nil_append]
    have r0 : readUnsigned 4 e (writeUnsigned 4 e 10 ++ extra) = Except.ok (10, extra) := by
      rw [readUnsigned_append, Nat.mod_eq_of_lt (by norm_num)]
    rw [hw]
    simp [readSimpleEnum, r0]
  | C =>
    have hw : writeSimpleEnum e DerivedSimpleEnum.C ++ extra = writeUnsigned 4 e 11 ++ extra := by
      show (writeUnsigned 4 e 11 ++ []) ++ extra = writeUnsigned 4 e 11 ++ extra
      rw [List.append_assoc, List.nil_append]
    have r0 : readUnsigned 4 e (writeUnsigned 4 e 11 ++ extra) = Except.ok (11, extra) := by
      rw [readUnsigned_append, Nat.mod_eq_of_lt (by norm_num)]
    rw [hw]
    simp [readSimpleEnum, r0]

theorem readDerivedEnum_writeDerivedEnum (e : Endianness) (v : DerivedEnum)
    (extra : List Nat) (h : derivedEnumFieldsValid v) :
    readDerivedEnum e (writeDerivedEnum e v ++ extra) = Except.ok (v, extra) := by
  cases v with
  | A =>
    have hw : writeDerivedEnum e DerivedEnum.A ++ extra = writeUnsigned 4 e 0 ++ extra := by
      show (writeUnsigned 4 e 0 ++ []) ++ extra = writeUnsigned 4 e 0 ++ extra
      rw [List.append_assoc, List.nil_append]
    have r0 : readUnsigned 4 e (writeUnsigned 4 e 0 ++ extra) = Except.ok (0, extra) := by
      rw [readUnsigned_append, Nat.mod_eq_of_lt (by norm_num)]
    rw [hw]
    simp [readDerivedEnum, r0]
  | B x y z =>
    have hb : x < 256 ∧ y < 256 ^ 2 ∧ z < 256 ^ 4 := h
    obtain ⟨h1, h2, h3⟩ := hb
    have hw : writeDerivedEnum e (DerivedEnum.B x y z) ++ extra =
        writeUnsigned 4 e 1 ++
          (writeUnsigned 1 e x ++ (writeUnsigned 2 e y ++ (writeUnsigned 4 e z ++ extra))) := by
      show (writeUnsigned 4 e 1 ++ writeFields e [(1, x), (2, y), (4, z)]) ++ extra = _
      rw [List.append_assoc]
      congr 1
      simp [writeFields, concatAll, List.append_assoc]
    have r0 : readUnsigned 4 e (writeUnsigned 4 e 1 ++
          (writeUnsigned 1 e x ++ (writeUnsigned 2 e y ++ (writeUnsigned 4 e z ++ extra)))) =
        Except.ok (1, writeUnsigned 1 e x ++
          (writeUnsigned 2 e y ++ (writeUnsigned 4 e z ++ extra))) := by
      rw [readUnsigned_append, Nat.mod_eq_of_lt (by norm_num)]
    have r1 : readU8 (writeUnsigned 1 e x ++
          (writeUnsigned 2 e y ++ (writeUnsigned 4 e z ++ extra))) =
        Except.ok (x, writeUnsigned 2 e y ++ (writeUnsigned 4 e z ++ extra)) :=
      readU8_append e x _ h1
    have r2 : readUnsigned 2 e (writeUnsigned 2 e y ++ (writeUnsigned 4 e z ++ extra)) =
        Except.ok (y, writeUnsigned 4 e z ++ extra) := by
      rw [readUnsigned_append, Nat.mod_eq_of_lt h2]
    have r3 : readUnsigned 4 e (writeUnsigned 4 e z ++ extra) = Except.ok (z, extra) := by
      rw [readUnsigned_append, Nat.mod_eq_of_lt h3]
    rw [hw]
    simp [readDerivedEnum, r0, r1, r2, r3]
  | C a b c =>
    have hb : a < 256 ∧ b < 256 ^ 2 ∧ c < 256 ^ 4 := h
    obtain ⟨h1, h2, h3⟩ := hb
    have hw : writeDerivedEnum e (DerivedEnum.C a b c) ++ extra =
        writeUnsigned 4 e 2 ++
          (writeUnsigned 1 e a ++ (writeUnsigned 2 e b ++ (writeUnsigned 4 e c ++ extra))) := by
      show (writeUnsigned 4 e 2 ++ writeFields e [(1, a), (2, b), (4, c)]) ++ extra = _
      rw [List.append_assoc]
      congr 1
      simp [writeFields, concatAll, List.append_assoc]
    have r0 : readUnsigned 4 e (writeUnsigned 4 e 2 ++
          (writeUnsigned 1 e a ++ (writeUnsigned 2 e b ++ (writeUnsigned 4 e c ++ extra)))) =
        Except.ok (2, writeUnsigned 1 e a ++
          (writeUnsigned 2 e b ++ (writeUnsigned 4 e c ++ extra))) := by
      rw [readUnsigned_append, Nat.mod_eq_of_lt (by norm_num)]
    have r1 : readU8 (writeUnsigned 1 e a ++
          (writeUnsigned 2 e b ++ (writeUnsigned 4 e c ++ extra))) =
        Except.ok (a, writeUnsigned 2 e b ++ (writeUnsigned 4 e c ++ extra)) :=
      readU8_append e a _ h1
    have r2 : readUnsigned 2 e (writeUnsigned 2 e b ++ (writeUnsigned 4 e c ++ extra)) =
        Except.ok (b, writeUnsigned 4 e c ++ extra) := by
      rw [readUnsigned_append, Nat.mod_eq_of_lt h2]
    have r3 : readUnsigned 4 e (writeUnsigned 4 e c ++ extra) = Except.ok (c, extra) := by
      rw [readUnsigned_append, Nat.mod_eq_of_lt h3]
    rw [hw]
    simp [readDerivedEnum, r0, r1, r2, r3]

theorem readDerivedStructWithLifetime_write (e : Endianness)
    (s : DerivedStructWithLifetime) (extra : List Nat)
    (h : s.bytes.val.length < 2 ^ 32) :
    readDerivedStructWithLifetime e (writeDerivedStructWithLifetime e s ++ extra) =
      Except.ok (⟨Cow.owned s.bytes.val⟩, extra) := by
  have hu := readVecU8_writeVecU8 e s.bytes.val extra h
  have hcow : readCowU8 e (writeCowU8 e s.bytes ++ extra) =
      Except.ok (Cow.owned s.bytes.val, extra) := by
    unfold writeCowU8
    simp only [readCowU8, hu]
  show readDerivedStructWithLifetime e (writeCowU8 e s.bytes ++ extra) = _
  simp only [readDerivedStructWithLifetime, hcow]

/-- Claim C1: for every supported type and both byte orders, decoding the
bytes produced by encoding a value under a Context yields, under the same
Context, a value equal to the original.  The primitive family is covered in
full generality (bool, the fixed-width unsigned and signed integers and
floats as bit patterns, byte vectors, signed-byte vectors, UTF-8 strings,
vectors of multi-byte numerics, and the borrowed-or-owned views over each
slice family; for views, equal in Rust's content-comparing `Cow` equality).
The composite family is covered through the shapes the layout contract
generates — named-field struct, tuple struct, unit and zero-field structs,
a unit-variant enum with explicit discriminants, an enum with tuple and
named-field payload variants, and a struct with a view field (the
instantiated form of the generic/lifetime test structs) — matching every
type roundtripped by `define_test` in tests/derive_tests.rs. -/
theorem claim_roundtrip :
    (∀ (b : Bool) (extra : List Nat),
        readBool (writeBool b ++ extra) = Except.ok (b, extra)) ∧
    (∀ (w : Nat) (e : Endianness) (v : Nat) (extra : List Nat), v < 256 ^ w →
        readUnsigned w e (writeUnsigned w e v ++ extra) = Except.ok (v, extra)) ∧
    (∀ (w : Nat) (e : Endianness) (i : Int) (extra : List Nat), 0 < w →
        -(2 ^ (8 * w - 1)) ≤ i → i < 2 ^ (8 * w - 1) →
        readSigned w e (writeSigned w e i ++ extra) = Except.ok (i, extra)) ∧
    (∀ (e : Endianness) (v extra : List Nat), v.length < 2 ^ 32 →
        readVecU8 e (writeVecU8 e v ++ extra) = Except.ok (v, extra)) ∧
    (∀ (e : Endianness) (v : List Int) (extra : List Nat), v.length < 2 ^ 32 →
        (∀ i ∈ v, -128 ≤ i ∧ i < 128) →
        readVecI8 e (writeVecI8 e v ++ extra) = Except.ok (v, extra)) ∧
    (∀ (e : Endianness) (s extra : List Nat), s.length < 2 ^ 32 →
        validUtf8 s = true →
        readString e (writeString e s ++ extra) = Except.ok (s, extra)) ∧
    (∀ (w : Nat) (native wire : Endianness) (vals extra : List Nat),
        vals.length < 2 ^ 32 → (∀ x ∈ vals, x < 256 ^ w) →
        readVecPrim w native wire (writeVecPrim w wire vals ++ extra) =
          Except.ok (vals, extra)) ∧
    (∀ (e : Endianness) (c : Cow (List Nat)) (extra : List Nat),
        c.val.length < 2 ^ 32 →
        readCowU8 e (writeCowU8 e c ++ extra) = Except.ok (Cow.owned c.val, extra) ∧
        (Cow.owned c.val).val = c.val) ∧
    (∀ (e : Endianness) (c : Cow (List Int)) (extra : List Nat),
        c.val.length < 2 ^ 32 → (∀ i ∈ c.val, -128 ≤ i ∧ i < 128) →
        readCowI8 e (writeCowI8 e c ++ extra) = Except.ok (Cow.owned c.val, extra) ∧
        (Cow.owned c.val).val = c.val) ∧
    (∀ (w : Nat) (native wire : Endianness) (c : Cow (List Nat)) (extra : List Nat),
        c.val.length < 2 ^ 32 → (∀ x ∈ c.val, x < 256 ^ w) →
        readCowPrim w native wire (writeCowPrim w wire c ++ extra) =
          Except.ok (Cow.owned c.val, extra) ∧
        (Cow.owned c.val).val = c.val) ∧
    (∀ (e : Endianness) (s : DerivedStruct) (extra : List Nat),
        s.a < 256 → s.b < 256 ^ 2 → s.c < 256 ^ 4 →
        readDerivedStruct e (writeDerivedStruct e s ++ extra) = Except.ok (s, extra)) ∧
    (∀ (e : Endianness) (x y z : Nat) (extra : List Nat),
        x < 256 → y < 256 ^ 2 → z < 256 ^ 4 →
        readDerivedTupleStruct e (writeDerivedTupleStruct e x y z ++ extra) =
          Except.ok ((x, y, z), extra)) ∧
    (∀ (e : Endianness) (extra : List Nat),
        readDerivedUnitStruct e (writeDerivedUnitStruct e ++ extra) =
          Except.ok ((), extra)) ∧
    (∀ (e : Endianness) (extra : List Nat),
        readDerivedEmptyStruct e (writeDerivedEmptyStruct e ++ extra) =
          Except.ok ((), extra)) ∧
    (∀ (e : Endianness) (v : DerivedSimpleEnum) (extra : List Nat),
        readSimpleEnum e (writeSimpleEnum e v ++ extra) = Except.ok (v, extra)) ∧
    (∀ (e : Endianness) (v : DerivedEnum) (extra : List Nat),
        derivedEnumFieldsValid v →
        readDerivedEnum e (writeDerivedEnum e v ++ extra) = Except.ok (v, extra)) ∧
    (∀ (e : Endianness) (s : DerivedStructWithLifetime) (extra : List Nat),
        s.bytes.val.length < 2 ^ 32 →
        readDerivedStructWithLifetime e (writeDerivedStructWithLifetime e s ++ extra) =
          Except.ok (⟨Cow.owned s.bytes.val⟩, extra) ∧
        (Cow.owned s.bytes.val).val = s.bytes.val) := by
  refine ⟨?_, ?_, ?_, readVecU8_writeVecU8, readVecI8_writeVecI8,
    readString_writeString, readVecPrim_writeVecPrim, ?_, ?_, ?_,
    readDerivedStruct_writeDerivedStruct, readDerivedTupleStruct_writeDerivedTupleStruct,
    fun _ _ => rfl, fun _ _ => rfl, readSimpleEnum_writeSimpleEnum,
    readDerivedEnum_writeDerivedEnum,
    fun e s extra h => ⟨readDerivedStructWithLifetime_write e s extra h, rfl⟩⟩
  · intro b extra
    cases b <;> simp [readBool, readU8, readRawBytes, writeBool]
  · intro w e v extra h
    rw [readUnsigned_append, Nat.mod_eq_of_lt h]
  · intro w e i extra hw hlo hhi
    have hb : toUnsigned w i < 256 ^ w := by
      rw [pow256_eq]
      exact toUnsigned_lt w i
    have hu : readUnsigned w e (writeUnsigned w e (toUnsigned w i) ++ extra) =
        Except.ok (toUnsigned w i, extra) := by
      rw [readUnsigned_append, Nat.mod_eq_of_lt hb]
    unfold writeSigned
    simp only [readSigned, hu]
    rw [toSigned_toUnsigned w i hw hlo hhi]
  · intro e c extra h
    have hu := readVecU8_writeVecU8 e c.val extra h
    unfold writeCowU8
    simp only [readCowU8, hu]
    exact ⟨trivial, rfl⟩
  · intro e c extra h hbound
    have hu := readVecI8_writeVecI8 e c.val extra h hbound
    unfold writeCowI8
    simp only [readCowI8, hu]
    exact ⟨trivial, rfl⟩
  · intro w native wire c extra h hbound
    have hu := readVecPrim_writeVecPrim w native wire c.val extra h hbound
    unfold writeCowPrim
    simp only [readCowPrim, hu]
    exact ⟨trivial, rfl⟩

/-- Witness for C1: the little-endian u16 roundtrip at the concrete value
777 returns 777, and the little-endian roundtrip of the derived struct
`{a: 1, b: 2, c: 3}` returns the same struct. -/
theorem claim_roundtrip_witness :
    readUnsigned 2 Endianness.littleEndian
        (writeUnsigned 2 Endianness.littleEndian 777 ++ []) = Except.ok (777, []) ∧
    readDerivedStruct Endianness.littleEndian
        (writeDerivedStruct Endianness.littleEndian ⟨1, 2, 3⟩ ++ []) =
      Except.ok (⟨1, 2, 3⟩, []) :=
  ⟨claim_roundtrip.2.1 2 Endianness.littleEndian 777 [] (by decide),
   claim_roundtrip.2.2.2.2.2.2.2.2.2.2.1 Endianness.littleEndian ⟨1, 2, 3⟩ []
     (by decide) (by decide) (by decide)⟩
